import Mathlib

/-!
Shallow embedding of the core of the Undergraduate-Research repository
(candidate-bios pipeline and state-medical-boards pipeline), together with
theorems settling the specification claims about it.

Sources embedded:
- `src/candidate_bios/c_retrieval.py` (`retrieve` batch loop, `splitCandidates`,
  `bioData`, `grabber`, `chatPrompt`)
- `src/candidate_bios/d_extraction.py` (`extract` fan-out loop, `parse`,
  the response-routing loop of `extractCSV`)
- `src/state_medical_boards/utils.py` (`tokenize_text`, `detokenize_text`,
  `truncate_text_by_max_tokens`, `chunk_text`, `count_tokens`)
- `src/state_medical_boards/models/run_violation_program.py` (`violations_helper`)

Python machine-level conventions used throughout:
- exceptions are modelled with `Option`/`Except` (`none`/`.error` = the Python
  code raised at that point);
- Python slices `l[a:b]` with non-negative bounds are `(l.take b).drop a`;
- `range(0, stop, step)` is modelled by `pyRangePos` for positive steps;
- strings are processed as `List Char` (ASCII treatment of Python's
  whitespace classes, which is what the scraped lowercase text contains).
-/

/-! ## Python string/list primitives -/

/-- Python slice `l[a:b]` for non-negative bounds `a`, `b`. -/
def pySliceN (l : List α) (a b : Nat) : List α :=
  (l.take b).drop a

/-- Python slice upper bound `l[:m]` where `m` may be negative
(`l[:-k]` drops the last `k` elements). -/
def pySliceTo (l : List α) (m : Int) : List α :=
  if m < 0 then l.take (((l.length : Int) + m).toNat) else l.take m.toNat

/-- Python `range(0, stop, step)` for a positive step:
`[0, step, 2*step, ...]` with `ceil(stop/step)` elements. -/
def pyRangePos (stop step : Nat) : List Nat :=
  (List.range ((stop + step - 1) / step)).map (fun i => i * step)

/-- The common comprehension `[l[i:i+n] for i in range(0, len(l), n)]`
(used both by `splitCandidates` in c_retrieval.py and by the chunking loop
of `chunk_text` in utils.py). -/
def sliceChunks (l : List α) (n : Nat) : List (List α) :=
  (pyRangePos l.length n).map (fun i => pySliceN l i (i + n))

/-- Python `str.partition(sep)` restricted to the found/not-found information
`grabber` uses: `some (before, after)` when `sep` occurs in `s` (split at the
first occurrence), `none` when it does not occur. -/
def pyPartition (sep : List Char) : List Char → Option (List Char × List Char)
  | [] => if sep.isPrefixOf ([] : List Char) then some ([], []) else none
  | c :: rest =>
    if sep.isPrefixOf (c :: rest) then some ([], (c :: rest).drop sep.length)
    else (pyPartition sep rest).map (fun pr => (c :: pr.1, pr.2))

/-- Whitespace class of Python's `\s` (ASCII part). -/
def pyIsSpace (c : Char) : Bool :=
  c == ' ' || c == '\t' || c == '\n' || c == '\r' || c == '\x0b' || c == '\x0c'

/-- Emits a pending whitespace run: a run containing a newline collapses to a
single space (this is what `re.sub(r"\s*\n\s*", " ", text)` does to every
maximal whitespace run containing a newline), other runs are kept verbatim.
The run is accumulated in reverse. -/
def flushRun (run : List Char) (seenNL : Bool) : List Char :=
  match run with
  | [] => []
  | _ :: _ => if seenNL then [' '] else run.reverse

/-- Scanner for `re.sub(r"\s*\n\s*", " ", text)`: walks the text accumulating
the current whitespace run (reversed) and whether it contains a newline. -/
def normAux : List Char → List Char → Bool → List Char
  | [], run, seenNL => flushRun run seenNL
  | c :: rest, run, seenNL =>
    if pyIsSpace c then normAux rest (c :: run) (seenNL || c == '\n')
    else flushRun run seenNL ++ c :: normAux rest [] false

/-- Model of `re.sub(r"\s*\n\s*", " ", text)` from `grabber`:
every maximal whitespace run containing at least one newline becomes a single
space; all other text is unchanged. -/
def normNewlines (l : List Char) : List Char :=
  normAux l [] false

/-- Python `text.split(" ")`: split on every single space character, keeping
empty pieces (`"".split(" ") == [""]`). -/
def splitSp : List Char → List (List Char)
  | [] => [[]]
  | c :: rest =>
    if c = ' ' then [] :: splitSp rest
    else
      match splitSp rest with
      | [] => [[c]]
      | w :: ws => (c :: w) :: ws

/-- Python `" ".join(words)`. -/
def joinSp : List (List Char) → List Char
  | [] => []
  | [w] => w
  | w :: ws => w ++ ' ' :: joinSp ws

/-- Python `words.index(tok)`: index of the first occurrence. -/
def pyIndexOf (tok : List Char) : List (List Char) → Nat
  | [] => 0
  | w :: ws => if w = tok then 0 else pyIndexOf tok ws + 1

/-- Python `str.title()` (ASCII model): an alphabetic character is uppercased
when the previous character is not cased, lowercased otherwise. -/
def pyTitleAux : Bool → List Char → List Char
  | _, [] => []
  | prevCased, c :: rest =>
    if c.isAlpha then
      (if prevCased then c.toLower else c.toUpper) :: pyTitleAux true rest
    else c :: pyTitleAux false rest

/-- Python `s.title()`. -/
def pyTitle (s : String) : String :=
  String.mk (pyTitleAux false s.data)

/-- Python `s.replace("\n", "")` (used by `parse` before `json.loads`). -/
def stripNewlines (s : String) : String :=
  String.mk (s.data.filter (fun c => c ≠ '\n'))

/-! ## state_medical_boards/utils.py — TokenBudgeter

The tiktoken encoder is the external tokenizer collaborator; following the
spec it is a parameter: a pair of `encode`/`decode` functions over an
arbitrary token type. -/

/-- External tokenizer collaborator (`tiktoken.get_encoding(...)` in
utils.py): `encode`/`decode` over an abstract token type. -/
structure Tokenizer (τ : Type) where
  encode : String → List τ
  decode : List τ → String

/-- `tokenize_text` from utils.py: encode text into tokens. -/
def tokenize_text (tk : Tokenizer τ) (text : String) : List τ :=
  tk.encode text

/-- `detokenize_text` from utils.py: decode tokens back into text. -/
def detokenize_text (tk : Tokenizer τ) (tokenized_text : List τ) : String :=
  tk.decode tokenized_text

/-- `count_tokens` from utils.py. -/
def count_tokens (tk : Tokenizer τ) (text : String) : Nat :=
  (tokenize_text tk text).length

/-- `truncate_text_by_max_tokens` from utils.py. `max_tokens` is kept as an
`Int` because the function performs no validation: the Python slice
`encoded_text[:max_tokens]` is taken for whatever bound the caller supplies. -/
def truncate_text_by_max_tokens (tk : Tokenizer τ) (text : String)
    (max_tokens : Int) : String :=
  let encoded_text := tokenize_text tk text
  if (encoded_text.length : Int) > max_tokens then
    detokenize_text tk (pySliceTo encoded_text max_tokens)
  else
    text

/-- `chunk_text` from utils.py. The loop `for i in range(0, len(encoded_text),
chunk_size)` raises `ValueError` when `chunk_size == 0`, iterates zero times
when `chunk_size < 0` (so an empty list is returned), and otherwise produces
the slices `encoded_text[i : i + chunk_size]`. -/
def chunk_text (tk : Tokenizer τ) (text : String) (chunk_size : Int) :
    Except String (List String) :=
  let encoded_text := tokenize_text tk text
  if chunk_size = 0 then
    Except.error "ValueError: range() arg 3 must not be zero"
  else if chunk_size < 0 then
    Except.ok []
  else
    Except.ok ((sliceChunks encoded_text chunk_size.toNat).map
      (detokenize_text tk))

/-! ## candidate_bios/c_retrieval.py -/

/-- The token `"accessibility"` used by `grabber`'s boilerplate cutoff. -/
def accessTok : List Char :=
  "accessibility".data

/-- The text `excerpt[1] + excerpt[2]` produced by
`information.partition(phrase)` in `grabber`: the suffix of `information`
starting at and including the first occurrence of `phrase`, or `""` when
`phrase` does not occur (the not-found partition is `(information, "", "")`). -/
def anchorText (information phrase : List Char) : List Char :=
  match pyPartition phrase information with
  | some pr => phrase ++ pr.2
  | none => []

/-- The `words` list computed inside `grabber`:
`re.sub(r"\s*\n\s*", " ", text).split(" ")`. -/
def anchorTokens (information phrase : List Char) : List (List Char) :=
  splitSp (normNewlines (anchorText information phrase))

/-- `grabber` from c_retrieval.py. Returns `none` when the call raises
(`str.partition` raises `ValueError` on an empty separator); otherwise the
joined window of `words[:400]`, cut just after the first `"accessibility"`
token when that token occurs among the first 400 words. -/
def grabber (information phrase : String) : Option String :=
  if phrase.data = [] then none
  else
    let words := anchorTokens information.data phrase.data
    let numWords :=
      if accessTok ∈ words.take 400 then pyIndexOf accessTok words + 1
      else 400
    some (String.mk (joinSp (words.take numWords)))

/-- One anchor-selection step of `bioData`
(`if link[name] != "nan" and not summary: summary = grabber(...)`).
The binding state `st` is `none` while the Python local `summary` is still
unbound; the result is `none` when the step raises (evaluating `not summary`
with `summary` unbound raises `NameError`; `grabber` may raise too). -/
def fallbackStep (information name : String) (st : Option String) :
    Option (Option String) :=
  if name ≠ "nan" then
    match st with
    | none => none
    | some s =>
      if s = "" then
        match grabber information name with
        | none => none
        | some s' => some (some s')
      else some (some s)
  else some st

/-- The per-URL summary selection inside `bioData` (c_retrieval.py lines
246-259), for a fresh call where the local `summary` starts unbound (this is
exactly the situation for the first URL of a candidate): try the last name
(unconditionally when `!= "nan"`), then first and middle names guarded by
`name != "nan" and not summary`, then `summaries.append(summary)`.
Returns `none` when an exception is raised anywhere (the enclosing
`except: continue` then skips the URL). -/
def bioDataUrlSummary (information last first middle : String) :
    Option String :=
  let st1 : Option (Option String) :=
    if last ≠ "nan" then
      match grabber information last with
      | none => none
      | some s => some (some s)
    else some none
  match st1 with
  | none => none
  | some st =>
    match fallbackStep information first st with
    | none => none
    | some st' =>
      match fallbackStep information middle st' with
      | none => none
      | some st'' => st''

/-- A candidate record as carried through c_retrieval.py (the dictionary built
in `retrieve` and threaded through `bioData` and `chatPrompt`; the `prompt`
field holds the scraped context text going in and the full ChatGPT prompt
coming out of `chatPrompt`). -/
structure CandRecord where
  sources : List String
  first : String
  middle : String
  last : String
  full : String
  minYear : String
  state : String
  candid : String
  prompt : String

/-- The prompt template of `chatPrompt` (c_retrieval.py lines 345-353).
The backslash line continuations inside the Python f-string keep the
eight-space indentation of each continued line as part of the string. -/
def chatPromptText (full state minYear context : String) : String :=
  "Extract ONLY the College Major, Undergraduate Institution, Highest Degree " ++
  "        and Institution, and Work History of " ++ pyTitle full ++
  ", a state representative " ++
  "        candidate from " ++ state ++ ", from the following text: " ++
  context ++ ". If any desired " ++
  "        information is not present in the given text, write N/A instead. Determine " ++
  "        your confidence that the information you previously extracted correctly " ++
  "        describes " ++ pyTitle full ++ ", a " ++ minYear ++
  " state representative candidate from " ++
  "        " ++ state ++ ", on a scale of 1 to 100. Display the college major, undergraduate " ++
  "        institution, highest degree and institution, work history, and your confidence " ++
  "        level as 5 elements of a JSON object."

/-- `chatPrompt` from c_retrieval.py: renders the template and stores
`f"{p} {info['Prompt']}"` back into the record's prompt field. -/
def chatPrompt (info : CandRecord) : CandRecord :=
  let p := chatPromptText info.full info.state info.minYear info.prompt
  { info with prompt := p ++ " " ++ info.prompt }

/-- `splitCandidates` from c_retrieval.py:
`[urls[i : i + groupSize] for i in range(0, len(urls), groupSize)]`. -/
def splitCandidates (urls : List α) (groupSize : Nat) : List (List α) :=
  sliceChunks urls groupSize

/-- Outcome of one worker call under the batch executor of `retrieve`:
a normal return, a `concurrent.futures.TimeoutError` on `future.result(timeout)`,
or any other exception. -/
inductive WRes (β : Type) where
  | ok (val : β)
  | timeout
  | exc (msg : String)

/-- The three outcome partitions accumulated by the batch loop of `retrieve`:
`bios` (successes), the global `timeoutCandidates` list, and the items whose
exceptions are recorded in `errors.txt`. -/
structure BatchReport (α β : Type) where
  successes : List β := []
  timeouts : List α := []
  failures : List α := []

/-- The per-future body of the batch loop in `retrieve` (lines 101-121):
`bios.append(result)` on success, `timeoutCandidates.append(info)` on
`TimeoutError`, an `errors.txt` record on any other exception. -/
def processItem (w : α → WRes β) (rep : BatchReport α β) (item : α) :
    BatchReport α β :=
  match w item with
  | WRes.ok b => { rep with successes := rep.successes ++ [b] }
  | WRes.timeout => { rep with timeouts := rep.timeouts ++ [item] }
  | WRes.exc _ => { rep with failures := rep.failures ++ [item] }

/-- The batch loop of `retrieve` (c_retrieval.py lines 96-130): the candidate
list is split into groups of `groupSize`, and only the groups in the window
`cands[firstBatch:lastBatch]` are dispatched (the source hardcodes
`firstBatch = 0`, `lastBatch = 100`). Every dispatched item is resolved to
exactly one of the three outcomes by `processItem`. -/
def runBatches (items : List α) (groupSize : Nat)
    (firstBatch lastBatch : Nat) (w : α → WRes β) : BatchReport α β :=
  let cands := splitCandidates items groupSize
  (pySliceN cands firstBatch lastBatch).foldl
    (fun rep group => group.foldl (processItem w) rep) {}

/-- The `firstBatch` constant hardcoded in `retrieve`. -/
def firstBatchDefault : Nat := 0

/-- The `lastBatch` constant hardcoded in `retrieve`. -/
def lastBatchDefault : Nat := 100

/-! ## candidate_bios/d_extraction.py

Values appearing in the response dictionaries are modelled as strings (the
claims only depend on which keys are present and on value identity, never on
JSON value structure). `json.loads` is the external JSON decoder collaborator
and is passed as a parameter `jloads` returning the decoded object's key/value
pairs, or `none` on a decode failure. -/

/-- The output dictionary fed to `parse`: the ChatGPT response together with
the candidate's identity/metadata fields. -/
structure RespOutput where
  response : String
  sources : String
  fullName : String
  minYear : String
  state : String
  candid : String
deriving DecidableEq

/-- Python dict lookup `d[k]` on an insertion-ordered association list
(Python dict keys are unique, so the first matching entry is the entry):
`none` models a `KeyError`. -/
def pyLookup : List (String × String) → String → Option String
  | [], _ => none
  | p :: ps, k => if p.1 = k then some p.2 else pyLookup ps k

/-- Python dict assignment `d[k] = v`: overwrite in place when the key exists
(keeping insertion order), append otherwise. -/
def pySet : List (String × String) → String → String → List (String × String)
  | [], k, v => [(k, v)]
  | p :: ps, k, v => if p.1 = k then (k, v) :: ps else p :: pySet ps k v

/-- Python `d.update(e)`: set every key/value pair of `e` in order. -/
def pyUpdate (d e : List (String × String)) : List (String × String) :=
  e.foldl (fun acc kv => pySet acc kv.1 kv.2) d

/-- The dictionary built by `parse` on a successful JSON decode, just before
`data.update(d)`: the five empty extraction fields in their literal order,
then the identity/metadata assignments. -/
def parseBaseData (output : RespOutput) : List (String × String) :=
  pySet (pySet (pySet (pySet (pySet
    [("College Major", ""), ("Undergraduate Institution", ""),
     ("Highest Degree and Institution", ""), ("Work History", ""),
     ("Confidence Level", "")]
    "Sources" output.sources)
    "Full Name" output.fullName)
    "Min Year" output.minYear)
    "State" output.state)
    "Candid" output.candid

/-- Return value of `parse`: either the merged dictionary or the Python list
`[-1, output]` produced on any exception in the `try` block. -/
inductive ParseRet where
  | dict (d : List (String × String))
  | errPair (raw : RespOutput)
deriving DecidableEq

/-- `parse` from d_extraction.py: strip newlines from the response, decode it
with `json.loads`, merge the decoded keys onto the base record with
`data.update(d)`; any exception (in particular a JSON decode failure) yields
`[-1, output]`. -/
def parse (jloads : String → Option (List (String × String)))
    (output : RespOutput) : ParseRet :=
  match jloads (stripNewlines output.response) with
  | none => ParseRet.errPair output
  | some d => ParseRet.dict (pyUpdate (parseBaseData output) d)

/-- Python `data != None` for the two shapes `parse` can return: a dict and a
list both compare unequal to `None`. -/
def pyNeNone : ParseRet → Bool :=
  fun _ => true

/-- Python `data[k]` for a string key `k` on a `parse` result: a dict lookup
(raising `KeyError` when the key is missing), while subscripting the list
`[-1, output]` with a string raises `TypeError`. `none` models the raise. -/
def pySubscript : ParseRet → String → Option String
  | ParseRet.dict d, k => pyLookup d k
  | ParseRet.errPair _, _ => none

/-- The ten keys read from `data` by the result-collection loop of
`extractCSV` (lines 422-435), in source order. -/
def resultKeys : List String :=
  ["Full Name", "College Major", "Undergraduate Institution",
   "Highest Degree and Institution", "Work History", "Confidence Level",
   "Sources", "Min Year", "State", "Candid"]

/-- Where one `parse` result is routed by the loop body of `extractCSV`
(lines 417-443). -/
inductive Route where
  | success (rec : List (String × String))
  | parseError (raw : RespOutput)
  | exceptionLogged (raw : RespOutput)
deriving DecidableEq

/-- The routing decision of the `extractCSV` loop body for one `parse` result
`data` belonging to `out`: since `data != None` holds for both shapes `parse`
returns, the success branch runs and reads `data["Full Name"]` etc.; when any
of those subscripts raises (`TypeError` on the `[-1, output]` list), the
`except Exception` handler records the item in `errors.txt` only. The
`elif data[0] == -1` branch is reachable only when `data == None`. -/
def routeParsed (data : ParseRet) (out : RespOutput) : Route :=
  if pyNeNone data then
    if resultKeys.all (fun k => (pySubscript data k).isSome) then
      Route.success (resultKeys.map
        (fun k => (k, (pySubscript data k).getD "")))
    else Route.exceptionLogged out
  else
    match data with
    | ParseRet.errPair raw => Route.parseError raw
    | ParseRet.dict _ => Route.exceptionLogged out

/-- The three destinations filled by the parse loop of `extractCSV`:
`rawResults`, `parseErrors` (written to d3_parseErrors.csv), and the items
only logged to `errors.txt` by the exception handler. -/
structure ExtractStage where
  rawResults : List (List (String × String)) := []
  parseErrors : List RespOutput := []
  logged : List RespOutput := []

/-- The parse loop of `extractCSV` over a list of outputs. -/
def extractCSVRoute (jloads : String → Option (List (String × String)))
    (outputs : List RespOutput) : ExtractStage :=
  outputs.foldl
    (fun acc out =>
      match routeParsed (parse jloads out) out with
      | Route.success r => { acc with rawResults := acc.rawResults ++ [r] }
      | Route.parseError raw =>
        { acc with parseErrors := acc.parseErrors ++ [raw] }
      | Route.exceptionLogged o => { acc with logged := acc.logged ++ [o] })
    {}

/-- Outcome partitions of the `chatFeed` fan-out loop in `extract`
(d_extraction.py lines 116-130): successful outputs and `promptErrors`. -/
structure FanoutReport (P O : Type) where
  outputs : List O := []
  promptErrors : List P := []

/-- The per-future body of the `extract` fan-out loop: append the result on
success, append the prompt to `promptErrors` on any exception. -/
def chatStep (w : P → Except String O) (rep : FanoutReport P O) (p : P) :
    FanoutReport P O :=
  match w p with
  | Except.ok o => { rep with outputs := rep.outputs ++ [o] }
  | Except.error _ => { rep with promptErrors := rep.promptErrors ++ [p] }

/-- The `chatFeed` fan-out loop of `extract`: futures are collected with
`as_completed`, so the processing order `completed` is an arbitrary
permutation of the submitted prompt list. -/
def extractFanout (completed : List P) (w : P → Except String O) :
    FanoutReport P O :=
  completed.foldl (chatStep w) {}

/-! ## state_medical_boards/models/run_violation_program.py -/

/-- The response object returned by the trained DSPy violation program
(the external classification-service collaborator). -/
structure VioResponse where
  patient_mentioned : String
  fraud_case : String
  malpractice_case : String
  dea_case : String
  improper_opioid_prescription : String
  improper_drug_prescription : String
  unfit_to_practice : String
  bad_medical_records : String
  license_issues : String
  miscellaneous_violation : String
  other_state_action : String
  no_substantive_information : String
  proactive : String

/-- One document row as updated by `violations_helper`. The empty-text and
failure branches write a column named `no_substantative_information` (sic),
while the success branch writes `no_substantive_information`; both columns
are therefore carried. -/
structure VioRow where
  textdata : String
  patient_mentioned : String := ""
  fraud_case : String := ""
  malpractice_case : String := ""
  dea_case : String := ""
  improper_opioid_prescription : String := ""
  improper_drug_prescription : String := ""
  unfit_to_practice : String := ""
  bad_medical_records : String := ""
  license_issues : String := ""
  miscellaneous_violation : String := ""
  other_state_action : String := ""
  no_substantive_information : String := ""
  no_substantative_information : String := ""
  proactive : String := ""

/-- `violations_helper` from run_violation_program.py: empty text marks every
judgment column `"empty"`; otherwise the document text is truncated to 12000
tokens and classified, and on the success path the response's
`improper_opioid_prescription` judgment is written into both the
`improper_opioid_prescription` and the `improper_drug_prescription` columns
(line 55); any exception marks every column `"failed to process"`. -/
def violations_helper (tk : Tokenizer τ)
    (program : String → Except String VioResponse) (row : VioRow) : VioRow :=
  if row.textdata = "" then
    { row with
      patient_mentioned := "empty", fraud_case := "empty",
      malpractice_case := "empty", dea_case := "empty",
      improper_opioid_prescription := "empty",
      improper_drug_prescription := "empty", unfit_to_practice := "empty",
      bad_medical_records := "empty", license_issues := "empty",
      miscellaneous_violation := "empty", other_state_action := "empty",
      no_substantative_information := "empty", proactive := "empty" }
  else
    match program (truncate_text_by_max_tokens tk row.textdata 12000) with
    | Except.ok response =>
      { row with
        patient_mentioned := response.patient_mentioned,
        fraud_case := response.fraud_case,
        malpractice_case := response.malpractice_case,
        dea_case := response.dea_case,
        improper_opioid_prescription := response.improper_opioid_prescription,
        improper_drug_prescription := response.improper_opioid_prescription,
        unfit_to_practice := response.unfit_to_practice,
        bad_medical_records := response.bad_medical_records,
        license_issues := response.license_issues,
        miscellaneous_violation := response.miscellaneous_violation,
        other_state_action := response.other_state_action,
        no_substantive_information := response.no_substantive_information,
        proactive := response.proactive }
    | Except.error _ =>
      { row with
        patient_mentioned := "failed to process",
        fraud_case := "failed to process",
        malpractice_case := "failed to process",
        dea_case := "failed to process",
        improper_opioid_prescription := "failed to process",
        improper_drug_prescription := "failed to process",
        unfit_to_practice := "failed to process",
        bad_medical_records := "failed to process",
        license_issues := "failed to process",
        miscellaneous_violation := "failed to process",
        other_state_action := "failed to process",
        no_substantative_information := "failed to process",
        proactive := "failed to process" }

/-! ## Lemmas about the chunking comprehension -/

theorem sliceChunks_nil (n : Nat) (hn : 0 < n) :
    sliceChunks ([] : List α) n = [] := by
  simp only [sliceChunks, pyRangePos, List.length_nil]
  rw [Nat.div_eq_of_lt (by omega)]
  rfl

theorem sliceChunks_cons (n : Nat) (hn : 0 < n) (l : List α) (hl : l ≠ []) :
    sliceChunks l n = l.take n :: sliceChunks (l.drop n) n := by
  have hlen : 1 ≤ l.length := List.length_pos.mpr hl
  have hk : (l.length + n - 1) / n = ((l.length - n) + n - 1) / n + 1 := by
    rcases le_or_lt l.length n with h | h
    · have h1 : l.length - n = 0 := Nat.sub_eq_zero_of_le h
      have h2 : (0 + n - 1) / n = 0 := Nat.div_eq_of_lt (by omega)
      have h3 : (l.length + n - 1) / n = 1 :=
        Nat.div_eq_of_lt_le (by omega) (by omega)
      rw [h1, h2, h3]
    · have h1 : l.length + n - 1 = (l.length - 1) + n := by omega
      have h2 : (l.length - n) + n - 1 = l.length - 1 := by omega
      rw [h1, h2, Nat.add_div_right _ hn]
  simp only [sliceChunks, pyRangePos, List.length_drop]
  rw [hk, List.range_succ_eq_map]
  simp only [List.map_cons, List.map_map]
  refine congrArg₂ List.cons ?_ ?_
  · simp [pySliceN]
  · refine List.map_congr_left (fun i _ => ?_)
    simp only [Function.comp_apply, pySliceN, List.take_drop, List.drop_drop]
    have e1 : n + (i * n + n) = Nat.succ i * n + n := by
      rw [Nat.succ_mul]; omega
    have e2 : n + i * n = Nat.succ i * n := by
      rw [Nat.succ_mul]; omega
    rw [e1, e2]

theorem sliceChunks_flatten (n : Nat) (hn : 0 < n) :
    ∀ l : List α, (sliceChunks l n).flatten = l
  | [] => by rw [sliceChunks_nil n hn]; rfl
  | a :: as => by
    rw [sliceChunks_cons n hn _ (by simp), List.flatten_cons,
      sliceChunks_flatten n hn ((a :: as).drop n), List.take_append_drop]
termination_by l => l.length
decreasing_by simp [List.length_drop]; omega

theorem sliceChunks_mem_length_le (n : Nat) (l : List α) (c : List α)
    (hc : c ∈ sliceChunks l n) : c.length ≤ n := by
  simp only [sliceChunks, pyRangePos, List.map_map, List.mem_map] at hc
  obtain ⟨i, -, rfl⟩ := hc
  simp only [Function.comp_apply, pySliceN, List.length_drop,
    List.length_take]
  omega

theorem sliceChunks_count_le (n : Nat) (hn : 0 < n) (l : List α) (L : Nat)
    (h : l.length ≤ n * L) : (sliceChunks l n).length ≤ L := by
  simp only [sliceChunks, pyRangePos, List.length_map, List.length_range]
  rw [Nat.div_le_iff_le_mul_add_pred hn]
  omega

/-! ## Accounting lemmas for the batch executor -/

/-- Total number of items recorded in a batch report. -/
def reportCount (rep : BatchReport α β) : Nat :=
  rep.successes.length + rep.timeouts.length + rep.failures.length

theorem processItem_count (w : α → WRes β) (rep : BatchReport α β)
    (item : α) :
    reportCount (processItem w rep item) = reportCount rep + 1 := by
  cases hw : w item <;>
    simp [processItem, hw, reportCount] <;> omega

theorem foldl_processItem_count (w : α → WRes β) (group : List α) :
    ∀ rep : BatchReport α β,
      reportCount (group.foldl (processItem w) rep)
        = reportCount rep + group.length := by
  induction group with
  | nil => intro rep; simp
  | cons a as ih =>
    intro rep
    rw [List.foldl_cons, ih, processItem_count]
    simp; omega

theorem foldl_groups_count (w : α → WRes β) (groups : List (List α)) :
    ∀ rep : BatchReport α β,
      reportCount (groups.foldl
        (fun rep group => group.foldl (processItem w) rep) rep)
        = reportCount rep + (groups.map List.length).sum := by
  induction groups with
  | nil => intro rep; simp
  | cons g gs ih =>
    intro rep
    rw [List.foldl_cons, ih, foldl_processItem_count]
    simp; omega

theorem runBatches_count (items : List α) (gs fb lb : Nat)
    (w : α → WRes β) :
    reportCount (runBatches items gs fb lb w)
      = ((pySliceN (splitCandidates items gs) fb lb).map List.length).sum := by
  unfold runBatches
  rw [foldl_groups_count]
  simp [reportCount]

theorem foldl_chatStep_count (w2 : P → Except String O) (ps : List P) :
    ∀ rep : FanoutReport P O,
      (ps.foldl (chatStep w2) rep).outputs.length
        + (ps.foldl (chatStep w2) rep).promptErrors.length
        = rep.outputs.length + rep.promptErrors.length + ps.length := by
  induction ps with
  | nil => intro rep; simp
  | cons p ps ih =>
    intro rep
    rw [List.foldl_cons, ih]
    cases hw : w2 p <;> simp [chatStep, hw] <;> omega

/-! ## Claim C1 -/

set_option maxRecDepth 10000 in
/-- C1 counterexample: the batch loop of `retrieve` only dispatches the
hardcoded window `cands[firstBatch:lastBatch] = cands[0:100]` of batches, so
with `groupSize = 1` and 101 items the 101st item is never dispatched and the
three outcome partitions account for only 100 of the 101 items, even though
every worker call returns normally. -/
theorem runBatches_window_counterexample :
    ¬ ((runBatches (List.range 101) 1 firstBatchDefault lastBatchDefault
          (fun n => WRes.ok n)).successes.length
        + (runBatches (List.range 101) 1 firstBatchDefault lastBatchDefault
          (fun n => WRes.ok n)).timeouts.length
        + (runBatches (List.range 101) 1 firstBatchDefault lastBatchDefault
          (fun n => WRes.ok n)).failures.length
      = (List.range 101).length) := by
  decide

/-- C1 (amended): whenever the item list fits inside the configured batch
window (`len(items) <= batchSize * lastBatch`, with `firstBatch = 0` as the
source hardcodes), every input item of the `retrieve` batch loop is recorded
in exactly one of the three outcome partitions regardless of the worker
outcome pattern, so `len(successes) + len(timeouts) + len(failures) =
len(items)`; and the `chatFeed` fan-out loop of `extract` likewise records
every prompt either in `outputs` or in `promptErrors` for any completion
order, so `len(outputs) + len(promptErrors) = len(prompts)`. Items in batches
beyond the window are silently dropped (see the counterexample). -/
theorem runBatches_accounting {α β P O : Type}
    (items : List α) (groupSize : Nat) (hgs : 0 < groupSize)
    (lb : Nat) (hfit : items.length ≤ groupSize * lb)
    (w : α → WRes β)
    (prompts completed : List P) (hperm : completed.Perm prompts)
    (w2 : P → Except String O) :
    ((runBatches items groupSize firstBatchDefault lb w).successes.length
        + (runBatches items groupSize firstBatchDefault lb w).timeouts.length
        + (runBatches items groupSize firstBatchDefault lb w).failures.length
      = items.length)
    ∧ ((extractFanout completed w2).outputs.length
        + (extractFanout completed w2).promptErrors.length
      = prompts.length) := by
  constructor
  · show reportCount (runBatches items groupSize firstBatchDefault lb w)
      = items.length
    have h2 : (splitCandidates items groupSize).length ≤ lb := by
      simpa [splitCandidates] using
        sliceChunks_count_le groupSize hgs items lb hfit
    have h3 : pySliceN (splitCandidates items groupSize)
        firstBatchDefault lb = splitCandidates items groupSize := by
      simp [pySliceN, firstBatchDefault, List.take_of_length_le h2]
    rw [runBatches_count, h3, ← List.length_flatten]
    simp only [splitCandidates]
    rw [sliceChunks_flatten groupSize hgs]
  · have h := foldl_chatStep_count w2 completed {}
    simpa [extractFanout, hperm.length_eq] using h

/-- C1 witness: the amended accounting theorem evaluated at a concrete
three-item run (one success, one timeout, one exception) and a concrete
two-prompt fan-out processed in reversed completion order. -/
theorem runBatches_accounting_witness :
    ((runBatches [10, 20, 30] 2 firstBatchDefault 100
        (fun n => if n = 10 then WRes.ok n
          else if n = 20 then WRes.timeout else WRes.exc "boom")).successes.length
      + (runBatches [10, 20, 30] 2 firstBatchDefault 100
        (fun n => if n = 10 then WRes.ok n
          else if n = 20 then WRes.timeout else WRes.exc "boom")).timeouts.length
      + (runBatches [10, 20, 30] 2 firstBatchDefault 100
        (fun n => if n = 10 then WRes.ok n
          else if n = 20 then WRes.timeout else WRes.exc "boom")).failures.length
      = ([10, 20, 30] : List Nat).length)
    ∧ ((extractFanout ["b", "a"]
        (fun p => if p = "a" then Except.error "err" else Except.ok p)).outputs.length
      + (extractFanout ["b", "a"]
        (fun p => if p = "a" then Except.error "err" else Except.ok p)).promptErrors.length
      = (["a", "b"] : List String).length) :=
  runBatches_accounting [10, 20, 30] 2 (by decide) 100 (by decide)
    (fun n => if n = 10 then WRes.ok n
      else if n = 20 then WRes.timeout else WRes.exc "boom")
    ["a", "b"] ["b", "a"] (by decide)
    (fun p => if p = "a" then Except.error "err" else Except.ok p)

/-! ## Claims C5, C6, C7 -/

/-- A concrete instance of the tokenizer collaborator for witnesses:
one character per token (its `encode`/`decode` round-trip exactly). -/
def charTk : Tokenizer Char :=
  ⟨fun s => s.data, fun l => String.mk l⟩

/-- C5: for positive `max_units`, `truncate_text_by_max_tokens` returns the
text unchanged byte-for-byte when `count(text) <= max_units`, and otherwise
returns the decode of the first `max_units` encoded units, whose count is at
most `max_units` (the count bound uses the collaborator contract that
`encode` inverts `decode`). -/
theorem truncate_text_spec {τ : Type} (tk : Tokenizer τ) (text : String)
    (max_units : Nat) (hpos : 0 < max_units)
    (hrt : ∀ le : List τ, tk.encode (tk.decode le) = le) :
    (count_tokens tk text ≤ max_units →
      truncate_text_by_max_tokens tk text (max_units : Int) = text)
    ∧ (max_units < count_tokens tk text →
      truncate_text_by_max_tokens tk text (max_units : Int)
          = tk.decode ((tk.encode text).take max_units)
        ∧ count_tokens tk
            (truncate_text_by_max_tokens tk text (max_units : Int))
          ≤ max_units) := by
  have hslice : pySliceTo (tk.encode text) (max_units : Int)
      = (tk.encode text).take max_units := by
    simp [pySliceTo]
  constructor
  · intro hle
    have : ¬ (((tokenize_text tk text).length : Int) > (max_units : Int)) := by
      simp only [tokenize_text]
      simp only [count_tokens, tokenize_text] at hle
      exact_mod_cast not_lt.mpr hle
    simp [truncate_text_by_max_tokens, this]
  · intro hgt
    have hcond : ((tokenize_text tk text).length : Int) > (max_units : Int) := by
      simp only [tokenize_text]
      simp only [count_tokens, tokenize_text] at hgt
      exact_mod_cast hgt
    have heq : truncate_text_by_max_tokens tk text (max_units : Int)
        = tk.decode ((tk.encode text).take max_units) := by
      simp only [truncate_text_by_max_tokens, detokenize_text, tokenize_text]
      rw [if_pos (by simpa [tokenize_text] using hcond), hslice]
    refine ⟨heq, ?_⟩
    rw [heq]
    simp only [count_tokens, tokenize_text, hrt]
    simp

/-- C6: for positive `unit_size`, `chunk_text` succeeds with pieces decoded
from the contiguous, non-overlapping slices of at most `unit_size` encoded
units in original order; the slices flatten back to the whole encoded
sequence, and re-encoding the pieces and concatenating yields exactly the
original encoded sequence (using the collaborator contract that `encode`
inverts `decode`). -/
theorem chunk_text_spec {τ : Type} (tk : Tokenizer τ) (text : String)
    (unit_size : Nat) (hpos : 0 < unit_size)
    (hrt : ∀ le : List τ, tk.encode (tk.decode le) = le) :
    ∃ pieces,
      chunk_text tk text (unit_size : Int) = Except.ok pieces
      ∧ pieces = (sliceChunks (tk.encode text) unit_size).map tk.decode
      ∧ (∀ c ∈ sliceChunks (tk.encode text) unit_size,
          c.length ≤ unit_size)
      ∧ (sliceChunks (tk.encode text) unit_size).flatten = tk.encode text
      ∧ (pieces.map tk.encode).flatten = tk.encode text := by
  have h0 : ¬ ((unit_size : Int) = 0) := by omega
  have h1 : ¬ ((unit_size : Int) < 0) := by omega
  refine ⟨(sliceChunks (tk.encode text) unit_size).map tk.decode, ?_, rfl,
    fun c hc => sliceChunks_mem_length_le unit_size _ c hc,
    sliceChunks_flatten unit_size hpos _, ?_⟩
  · simp [chunk_text, h0, h1, tokenize_text, detokenize_text]
  · rw [List.map_map]
    have : (sliceChunks (tk.encode text) unit_size).map (tk.encode ∘ tk.decode)
        = (sliceChunks (tk.encode text) unit_size).map id :=
      List.map_congr_left (fun c _ => hrt c)
    rw [this, List.map_id]
    exact sliceChunks_flatten unit_size hpos _

/-- C5 witness: the truncation contract evaluated at the character tokenizer,
text `"abc"` and budget 2 (the text encodes to 3 units, so the second branch
applies and returns `"ab"`). -/
theorem truncate_text_spec_witness :
    (count_tokens charTk "abc" ≤ 2 →
      truncate_text_by_max_tokens charTk "abc" (2 : Nat) = "abc")
    ∧ (2 < count_tokens charTk "abc" →
      truncate_text_by_max_tokens charTk "abc" (2 : Nat)
          = charTk.decode ((charTk.encode "abc").take 2)
        ∧ count_tokens charTk
            (truncate_text_by_max_tokens charTk "abc" (2 : Nat)) ≤ 2) :=
  truncate_text_spec charTk "abc" 2 (by decide) (fun le => rfl)

/-- C6 witness: the chunking contract evaluated at the character tokenizer,
text `"abcde"` and unit size 2. -/
theorem chunk_text_spec_witness :
    ∃ pieces,
      chunk_text charTk "abcde" ((2 : Nat) : Int) = Except.ok pieces
      ∧ pieces = (sliceChunks (charTk.encode "abcde") 2).map charTk.decode
      ∧ (∀ c ∈ sliceChunks (charTk.encode "abcde") 2, c.length ≤ 2)
      ∧ (sliceChunks (charTk.encode "abcde") 2).flatten
        = charTk.encode "abcde"
      ∧ (pieces.map charTk.encode).flatten = charTk.encode "abcde" :=
  chunk_text_spec charTk "abcde" 2 (by decide) (fun le => rfl)

/-- C7 counterexample: the token-budget operations do not fail fast on
non-positive budgets: `truncate_text_by_max_tokens` with `max_units = 0`
returns the result `""` (the decode of the empty slice) rather than raising,
and `chunk_text` with `unit_size = -1` returns the result `[]` rather than
raising. -/
theorem budget_validation_counterexample :
    truncate_text_by_max_tokens charTk "ab" 0 = ""
    ∧ chunk_text charTk "ab" (-1) = Except.ok [] := by
  constructor <;> rfl

/-- C7 (amended): `truncate_text_by_max_tokens` and `chunk_text` perform no
parameter validation. With `max_units <= 0` the truncation still returns a
result (the decode of the Python slice `encoded[:max_units]`, whenever the
text encodes to at least one unit); with negative `unit_size` the chunking
returns the result `[]`; only `unit_size = 0` raises, and that error is the
`ValueError` from `range`, not a dedicated budget-validation error. -/
theorem budget_no_validation {τ : Type} (tk : Tokenizer τ) (text : String)
    (mu cs : Int) (hmu : mu ≤ 0) (hcs : cs < 0) :
    (0 < (tk.encode text).length →
      truncate_text_by_max_tokens tk text mu
        = tk.decode (pySliceTo (tk.encode text) mu))
    ∧ chunk_text tk text cs = Except.ok []
    ∧ chunk_text tk text 0
      = Except.error "ValueError: range() arg 3 must not be zero" := by
  refine ⟨fun hlen => ?_, ?_, ?_⟩
  · have hcond : ((tokenize_text tk text).length : Int) > mu := by
      simp only [tokenize_text]
      omega
    simp only [truncate_text_by_max_tokens, detokenize_text, tokenize_text]
    rw [if_pos (by simpa [tokenize_text] using hcond)]
  · have h0 : ¬ (cs = 0) := by omega
    simp [chunk_text, h0, hcs]
  · simp [chunk_text]

/-- C7 amended-claim witness: the no-validation behavior evaluated at the
character tokenizer with `max_units = 0` and `unit_size = -1`. -/
theorem budget_no_validation_witness :
    (0 < (charTk.encode "ab").length →
      truncate_text_by_max_tokens charTk "ab" 0
        = charTk.decode (pySliceTo (charTk.encode "ab") 0))
    ∧ chunk_text charTk "ab" (-1) = Except.ok []
    ∧ chunk_text charTk "ab" 0
      = Except.error "ValueError: range() arg 3 must not be zero" :=
  budget_no_validation charTk "ab" 0 (-1) (by decide) (by decide)

/-! ## Claims C9, C10 -/

/-- C9: `chatPrompt` is deterministic pure string formatting: any two records
agreeing on the display name, state, minimum-year metadata and context text
produce byte-identical prompt output, across any number of calls (the
function has no other inputs, so repeated calls cannot differ). -/
theorem chatPrompt_deterministic (i j : CandRecord)
    (hfull : i.full = j.full) (hstate : i.state = j.state)
    (hyear : i.minYear = j.minYear) (hctx : i.prompt = j.prompt) :
    (chatPrompt i).prompt = (chatPrompt j).prompt := by
  simp [chatPrompt, chatPromptText, hfull, hstate, hyear, hctx]

/-- C9 witness: two records differing only in fields outside the template
(sources, name parts, candid) produce byte-identical prompts. -/
theorem chatPrompt_deterministic_witness :
    (chatPrompt ⟨["u1"], "john", "", "smith", "john smith", "2020", "Ohio",
        "1", "some context"⟩).prompt
      = (chatPrompt ⟨["u2"], "j", "x", "s", "john smith", "2020", "Ohio",
        "2", "some context"⟩).prompt :=
  chatPrompt_deterministic _ _ rfl rfl rfl rfl

/-- C10: on the success path of `violations_helper` (non-empty text, the
program call returns normally), the `improper_drug_prescription` column is
assigned the response's `improper_opioid_prescription` judgment, so the two
output columns are always equal. -/
theorem violations_helper_drug_eq_opioid {τ : Type} (tk : Tokenizer τ)
    (program : String → Except String VioResponse) (row : VioRow)
    (resp : VioResponse) (hne : row.textdata ≠ "")
    (hok : program (truncate_text_by_max_tokens tk row.textdata 12000)
      = Except.ok resp) :
    (violations_helper tk program row).improper_drug_prescription
      = (violations_helper tk program row).improper_opioid_prescription
    ∧ (violations_helper tk program row).improper_drug_prescription
      = resp.improper_opioid_prescription := by
  constructor <;> simp [violations_helper, hne, hok]

/-- C10 witness: a response whose two prescription judgments differ
(`opioid = "yes"`, `drug = "no"`) still yields equal output columns, both
carrying the opioid judgment. -/
theorem violations_helper_drug_eq_opioid_witness :
    (violations_helper charTk
        (fun _ => Except.ok ⟨"pm", "fc", "mc", "dc", "yes", "no", "ufp",
          "bmr", "li", "mv", "osa", "nsi", "pro"⟩)
        { textdata := "doc text" }).improper_drug_prescription
      = (violations_helper charTk
        (fun _ => Except.ok ⟨"pm", "fc", "mc", "dc", "yes", "no", "ufp",
          "bmr", "li", "mv", "osa", "nsi", "pro"⟩)
        { textdata := "doc text" }).improper_opioid_prescription
    ∧ (violations_helper charTk
        (fun _ => Except.ok ⟨"pm", "fc", "mc", "dc", "yes", "no", "ufp",
          "bmr", "li", "mv", "osa", "nsi", "pro"⟩)
        { textdata := "doc text" }).improper_drug_prescription
      = "yes" :=
  violations_helper_drug_eq_opioid charTk
    (fun _ => Except.ok ⟨"pm", "fc", "mc", "dc", "yes", "no", "ufp",
      "bmr", "li", "mv", "osa", "nsi", "pro"⟩)
    { textdata := "doc text" }
    ⟨"pm", "fc", "mc", "dc", "yes", "no", "ufp", "bmr", "li", "mv", "osa",
      "nsi", "pro"⟩
    (by decide) rfl

/-! ## Claims C8, C2 -/

theorem pyLookup_pySet_ne (d : List (String × String)) (k k' v : String)
    (hne : k' ≠ k) : pyLookup (pySet d k' v) k = pyLookup d k := by
  induction d with
  | nil => simp [pySet, pyLookup, hne]
  | cons p ps ih =>
    by_cases hp : p.1 = k'
    · simp [pySet, hp, pyLookup, hne]
    · simp [pySet, hp, pyLookup, ih]

theorem pyUpdate_lookup_notmem (e : List (String × String)) (k : String)
    (hk : ∀ kv ∈ e, kv.1 ≠ k) :
    ∀ d, pyLookup (pyUpdate d e) k = pyLookup d k := by
  induction e with
  | nil => intro d; rfl
  | cons kv e ih =>
    intro d
    have h1 : kv.1 ≠ k := hk kv (by simp)
    have h2 : ∀ kv' ∈ e, kv'.1 ≠ k := fun kv' h => hk kv' (by simp [h])
    show pyLookup (pyUpdate (pySet d kv.1 kv.2) e) k = pyLookup d k
    rw [ih h2, pyLookup_pySet_ne d k kv.1 kv.2 h1]

/-- C8: `parse` returns the `[-1, output]` error value (not a raised
exception) exactly when `json.loads` fails on the newline-stripped response,
and on a successful decode returns the merged record `data.update(d)` even
when expected keys are missing from `d`: every key untouched by `d` keeps its
base-record value (the empty string for the five extraction fields, the
output's identity values for the metadata fields), so absent keys are simply
missing downstream rather than an error. -/
theorem parse_classifies (jloads : String → Option (List (String × String)))
    (out : RespOutput) :
    (jloads (stripNewlines out.response) = none →
      parse jloads out = ParseRet.errPair out)
    ∧ (∀ d, jloads (stripNewlines out.response) = some d →
        parse jloads out = ParseRet.dict (pyUpdate (parseBaseData out) d)
        ∧ ∀ k, (∀ kv ∈ d, kv.1 ≠ k) →
            pyLookup (pyUpdate (parseBaseData out) d) k
              = pyLookup (parseBaseData out) k) := by
  refine ⟨fun h => ?_, fun d hd => ⟨?_, fun k hk => ?_⟩⟩
  · simp [parse, h]
  · simp [parse, hd]
  · exact pyUpdate_lookup_notmem d k hk (parseBaseData out)

/-- A concrete output record whose response is not valid JSON, used to
evaluate the extraction stage. -/
def sampleOutput : RespOutput :=
  ⟨"this is not json", "['u1']", "john smith", "2020", "Ohio", "17"⟩

/-- A concrete decode result for a well-formed JSON object that carries only
one of the expected keys. -/
def sampleDecoded : List (String × String) :=
  [("College Major", "Computer Science")]

/-- C8 witness: `parse` evaluated on the failing decoder (the response is not
valid JSON) yields the error pair, and on a decoder returning an incomplete
object yields the merged record in which the untouched key `"Work History"`
keeps its base value. -/
theorem parse_classifies_witness :
    parse (fun _ => none) sampleOutput = ParseRet.errPair sampleOutput
    ∧ parse (fun _ => some sampleDecoded) sampleOutput
      = ParseRet.dict (pyUpdate (parseBaseData sampleOutput) sampleDecoded)
    ∧ pyLookup (pyUpdate (parseBaseData sampleOutput) sampleDecoded)
        "Work History"
      = pyLookup (parseBaseData sampleOutput) "Work History" :=
  ⟨(parse_classifies (fun _ => none) sampleOutput).1 rfl,
   ((parse_classifies (fun _ => some sampleDecoded) sampleOutput).2
     sampleDecoded rfl).1,
   ((parse_classifies (fun _ => some sampleDecoded) sampleOutput).2
     sampleDecoded rfl).2 "Work History" (by decide)⟩

/-- C2 (code bug evaluation): for a response that is not valid JSON, `parse`
returns the list `[-1, output]`; the routing loop of `extractCSV` then takes
the `data != None` branch (a list compares unequal to `None`), raises
`TypeError` on `data["Full Name"]`, and the `except Exception` handler only
records the item in errors.txt — so the item reaches neither `rawResults`
nor `parseErrors`, and d3_parseErrors.csv stays empty, contrary to the claim
that the raw response is preserved in the parse-error partition. -/
theorem parse_error_lands_in_errors_log :
    parse (fun _ => none) sampleOutput = ParseRet.errPair sampleOutput
    ∧ (extractCSVRoute (fun _ => none) [sampleOutput]).parseErrors = []
    ∧ (extractCSVRoute (fun _ => none) [sampleOutput]).rawResults = []
    ∧ (extractCSVRoute (fun _ => none) [sampleOutput]).logged
      = [sampleOutput] := by
  refine ⟨rfl, rfl, rfl, rfl⟩

/-! ## Lemmas about split/join/normalization, towards claims C3 and C4 -/

theorem splitSp_ne_nil (l : List Char) : splitSp l ≠ [] := by
  cases l with
  | nil => simp [splitSp]
  | cons c rest =>
    by_cases hc : c = ' '
    · simp [splitSp, hc]
    · cases h : splitSp rest <;> simp [splitSp, hc, h]

theorem splitSp_no_space (l : List Char) :
    ∀ w ∈ splitSp l, ' ' ∉ w := by
  induction l with
  | nil => intro w hw; simp [splitSp] at hw; simp [hw]
  | cons c rest ih =>
    intro w hw
    by_cases hc : c = ' '
    · simp [splitSp, hc] at hw
      rcases hw with rfl | hw
      · simp
      · exact ih w hw
    · cases h : splitSp rest with
      | nil => exact absurd h (splitSp_ne_nil rest)
      | cons w0 ws =>
        simp [splitSp, hc, h] at hw
        rcases hw with rfl | hw
        · have h0 : ' ' ∉ w0 := ih w0 (by rw [h]; simp)
          simp [hc]
          exact ⟨fun he => hc he.symm, h0⟩
        · exact ih w (by rw [h]; simp [hw])

theorem splitSp_append_nospace (p : List Char) (hp : ' ' ∉ p) :
    ∀ t w ws, splitSp t = w :: ws → splitSp (p ++ t) = (p ++ w) :: ws := by
  induction p with
  | nil => intro t w ws h; simpa using h
  | cons c cs ih =>
    intro t w ws h
    have hc : ¬ (c = ' ') := fun hc => hp (by simp [hc])
    have hcs : ' ' ∉ cs := fun h' => hp (List.mem_cons_of_mem _ h')
    have hrec := ih hcs t w ws h
    show splitSp (c :: (cs ++ t)) = (c :: (cs ++ w)) :: ws
    simp only [splitSp, if_neg hc, hrec]

theorem splitSp_nospace_singleton (w : List Char) (hw : ' ' ∉ w) :
    splitSp w = [w] := by
  induction w with
  | nil => rfl
  | cons c cs ih =>
    have hc : ¬ (c = ' ') := fun hc => hw (by simp [hc])
    have hcs : ' ' ∉ cs := fun h' => hw (List.mem_cons_of_mem _ h')
    simp only [splitSp, if_neg hc, ih hcs]

theorem splitSp_joinSp (ws : List (List Char)) (w : List Char)
    (hok : ∀ u ∈ w :: ws, ' ' ∉ u) :
    splitSp (joinSp (w :: ws)) = w :: ws := by
  induction ws generalizing w with
  | nil =>
    show splitSp (joinSp [w]) = [w]
    rw [show joinSp [w] = w from rfl]
    exact splitSp_nospace_singleton w (hok w (by simp))
  | cons x ws ih =>
    have hj : joinSp (w :: x :: ws) = w ++ ' ' :: joinSp (x :: ws) := rfl
    have hx : splitSp (joinSp (x :: ws)) = x :: ws :=
      ih x (fun u hu => hok u (by simp at hu ⊢; tauto))
    have hsp : splitSp (' ' :: joinSp (x :: ws)) = [] :: x :: ws := by
      simp [splitSp, hx]
    have hw : ' ' ∉ w := hok w (by simp)
    rw [hj, splitSp_append_nospace w hw _ [] (x :: ws) hsp]
    simp

theorem joinSp_splitSp (l : List Char) : joinSp (splitSp l) = l := by
  induction l with
  | nil => rfl
  | cons c rest ih =>
    by_cases hc : c = ' '
    · cases h : splitSp rest with
      | nil => exact absurd h (splitSp_ne_nil rest)
      | cons w ws =>
        subst hc
        simp only [splitSp, if_pos rfl, h]
        show ' ' :: joinSp (w :: ws) = ' ' :: rest
        rw [← h, ih]
    · cases h : splitSp rest with
      | nil => exact absurd h (splitSp_ne_nil rest)
      | cons w ws =>
        simp only [splitSp, if_neg hc, h]
        cases ws with
        | nil =>
          show c :: w = c :: rest
          have : joinSp [w] = rest := by rw [← h, ih]
          simpa using this
        | cons y ys =>
          show (c :: w) ++ ' ' :: joinSp (y :: ys) = c :: rest
          have : joinSp (w :: y :: ys) = rest := by rw [← h, ih]
          rw [← this]
          rfl

theorem joinSp_cons_exists (x : List Char) (xs : List (List Char)) :
    ∃ t, joinSp (x :: xs) = x ++ t := by
  cases xs with
  | nil => exact ⟨[], by simp [joinSp]⟩
  | cons y ys => exact ⟨' ' :: joinSp (y :: ys), rfl⟩

theorem joinSp_take_isPrefix (ws : List (List Char)) :
    ∀ n, joinSp (ws.take n) <+: joinSp ws := by
  induction ws with
  | nil => intro n; simp [joinSp]
  | cons x xs ih =>
    intro n
    cases n with
    | zero => simp [joinSp]
    | succ n =>
      cases xs with
      | nil => simp [joinSp]
      | cons y ys =>
        cases n with
        | zero =>
          show joinSp [x] <+: joinSp (x :: y :: ys)
          exact ⟨' ' :: joinSp (y :: ys), rfl⟩
        | succ m =>
          show joinSp (x :: (y :: ys).take (m + 1)) <+: joinSp (x :: y :: ys)
          have htake : (y :: ys).take (m + 1) = y :: ys.take m := rfl
          rw [htake]
          have hrec : joinSp ((y :: ys).take (m + 1)) <+: joinSp (y :: ys) :=
            ih (m + 1)
          rw [htake] at hrec
          obtain ⟨t, ht⟩ := hrec
          refine ⟨t, ?_⟩
          show x ++ ' ' :: joinSp (y :: ys.take m) ++ t
            = x ++ ' ' :: joinSp (y :: ys)
          rw [List.append_assoc, List.cons_append, ht]

theorem normNewlines_append_nospace (p : List Char)
    (hp : ∀ c ∈ p, pyIsSpace c = false) :
    ∀ t, normNewlines (p ++ t) = p ++ normNewlines t := by
  induction p with
  | nil => intro t; rfl
  | cons c cs ih =>
    intro t
    have hc : pyIsSpace c = false := hp c (by simp)
    have hcs : ∀ c' ∈ cs, pyIsSpace c' = false :=
      fun c' h' => hp c' (List.mem_cons_of_mem _ h')
    show normAux (c :: (cs ++ t)) [] false = c :: (cs ++ normNewlines t)
    simp only [normAux, hc, Bool.false_eq_true, if_false, flushRun,
      List.nil_append]
    exact congrArg (c :: ·) (ih hcs t)

theorem pyPartition_isSome (sep : List Char) (hsep : sep ≠ []) :
    ∀ pre post, ∃ pr, pyPartition sep (pre ++ sep ++ post) = some pr := by
  intro pre
  induction pre with
  | nil =>
    intro post
    have hpref : sep.isPrefixOf (sep ++ post) = true := by
      rw [List.isPrefixOf_iff_prefix]
      exact List.prefix_append sep post
    cases hs : sep with
    | nil => exact absurd hs hsep
    | cons c cs =>
      refine ⟨([], ((c :: cs) ++ post).drop (c :: cs).length), ?_⟩
      rw [hs] at hpref
      simp only [List.nil_append, List.cons_append, pyPartition]
      rw [if_pos (by simpa [List.cons_append] using hpref)]
      rfl
  | cons c pre ih =>
    intro post
    show ∃ pr, pyPartition sep (c :: (pre ++ sep ++ post)) = some pr
    by_cases hpref : sep.isPrefixOf (c :: (pre ++ sep ++ post))
    · exact ⟨([], (c :: (pre ++ sep ++ post)).drop sep.length),
        by simp only [pyPartition, if_pos hpref]⟩
    · obtain ⟨pr, hpr⟩ := ih post
      exact ⟨(c :: pr.1, pr.2),
        by simp only [pyPartition, if_neg hpref, hpr, Option.map_some']⟩

theorem pyPartition_eq_append (sep : List Char) :
    ∀ s b a, pyPartition sep s = some (b, a) → s = b ++ sep ++ a := by
  intro s
  induction s with
  | nil =>
    intro b a h
    by_cases hp : sep.isPrefixOf ([] : List Char)
    · have hsep : sep = [] := by
        have := List.isPrefixOf_iff_prefix.mp hp
        simpa using this
      simp only [pyPartition, if_pos hp] at h
      obtain ⟨rfl, rfl⟩ := Prod.mk.injEq .. ▸ Option.some.inj h
      simp [hsep]
    · simp [pyPartition, hp] at h
  | cons c rest ih =>
    intro b a h
    by_cases hp : sep.isPrefixOf (c :: rest)
    · simp only [pyPartition, if_pos hp] at h
      obtain ⟨rfl, rfl⟩ := Prod.mk.injEq .. ▸ Option.some.inj h
      obtain ⟨t, ht⟩ := List.isPrefixOf_iff_prefix.mp hp
      conv_lhs => rw [← ht]
      simp [← ht, List.drop_left]
    · simp only [pyPartition, if_neg hp, Option.map_eq_some'] at h
      obtain ⟨⟨b', a'⟩, hrec, hba⟩ := h
      obtain ⟨rfl, rfl⟩ := Prod.mk.injEq .. ▸ hba
      have := ih b' a' hrec
      simp [this]

theorem pyPartition_minimal (sep : List Char) :
    ∀ s b a, pyPartition sep s = some (b, a) →
      ∀ b' a', s = b' ++ sep ++ a' → b.length ≤ b'.length := by
  intro s
  induction s with
  | nil =>
    intro b a h b' a' hs
    by_cases hp : sep.isPrefixOf ([] : List Char)
    · simp only [pyPartition, if_pos hp] at h
      obtain ⟨rfl, rfl⟩ := Prod.mk.injEq .. ▸ Option.some.inj h
      simp
    · simp [pyPartition, hp] at h
  | cons c rest ih =>
    intro b a h b' a' hs
    by_cases hp : sep.isPrefixOf (c :: rest)
    · simp only [pyPartition, if_pos hp] at h
      obtain ⟨rfl, rfl⟩ := Prod.mk.injEq .. ▸ Option.some.inj h
      simp
    · simp only [pyPartition, if_neg hp, Option.map_eq_some'] at h
      obtain ⟨⟨b0, a0⟩, hrec, hba⟩ := h
      obtain ⟨rfl, rfl⟩ := Prod.mk.injEq .. ▸ hba
      cases b' with
      | nil =>
        exfalso
        apply hp
        rw [List.isPrefixOf_iff_prefix]
        exact ⟨a', by simpa using hs.symm⟩
      | cons c' b'' =>
        have hrest : rest = b'' ++ sep ++ a' := by
          simpa using congrArg List.tail hs
        have := ih b0 a0 hrec b'' a' hrest
        simpa using Nat.succ_le_succ this

theorem pyIndexOf_lt_of_mem_take (tok : List Char) :
    ∀ (ws : List (List Char)) (n : Nat),
      tok ∈ ws.take n → pyIndexOf tok ws < n := by
  intro ws
  induction ws with
  | nil => intro n h; simp at h
  | cons w ws ih =>
    intro n h
    cases n with
    | zero => simp at h
    | succ n =>
      by_cases hw : w = tok
      · simp [pyIndexOf, hw]
      · have htake : (w :: ws).take (n + 1) = w :: ws.take n := rfl
        rw [htake] at h
        rcases List.mem_cons.mp h with h' | h'
        · exact absurd h'.symm hw
        · have := ih n h'
          simp only [pyIndexOf, if_neg hw]
          omega

theorem pyIndexOf_take_getLast (tok : List Char) :
    ∀ ws : List (List Char), tok ∈ ws →
      (ws.take (pyIndexOf tok ws + 1)).getLast? = some tok := by
  intro ws
  induction ws with
  | nil => intro h; simp at h
  | cons w ws ih =>
    intro h
    by_cases hw : w = tok
    · simp [pyIndexOf, hw, List.take_succ_cons]
    · have htok : tok ∈ ws := by
        rcases List.mem_cons.mp h with h' | h'
        · exact absurd h'.symm hw
        · exact h'
      cases ws with
      | nil => simp at htok
      | cons y ys =>
        simp only [pyIndexOf, if_neg hw]
        rw [List.take_succ_cons, List.take_succ_cons,
          List.getLast?_cons_cons]
        have hrec := ih htok
        rwa [List.take_succ_cons] at hrec

/-! ## Claim C3 -/

/-- C3: for every normalized page text containing the anchor phrase (a
whitespace-free name fragment), `grabber` returns a window that starts at and
includes the first occurrence of the anchor phrase (the window is anchored at
the occurrence with minimal prefix length and is a prefix of the normalized
text from that occurrence on), contains at most 400 space-delimited tokens,
and, when the token `"accessibility"` occurs within the first 400 tokens of
the anchored word list, ends immediately after that token. -/
theorem grabber_anchor_window (information phrase : String)
    (hnonempty : phrase.data ≠ [])
    (hnospace : ∀ c ∈ phrase.data, pyIsSpace c = false)
    (hocc : ∃ pre post, information.data = pre ++ phrase.data ++ post) :
    ∃ w, grabber information phrase = some w
      ∧ phrase.data <+: w.data
      ∧ (splitSp w.data).length ≤ 400
      ∧ w.data <+: normNewlines (anchorText information.data phrase.data)
      ∧ (∃ pre post, information.data = pre ++ phrase.data ++ post
          ∧ (∀ pre' post',
              information.data = pre' ++ phrase.data ++ post' →
                pre.length ≤ pre'.length)
          ∧ anchorText information.data phrase.data
            = phrase.data ++ post)
      ∧ (accessTok ∈ (anchorTokens information.data phrase.data).take 400 →
          (splitSp w.data).getLast? = some accessTok) := by
  obtain ⟨pre0, post0, hsplit⟩ := hocc
  obtain ⟨pr, hpr⟩ := pyPartition_isSome phrase.data hnonempty pre0 post0
  rw [← hsplit] at hpr
  obtain ⟨b, a⟩ := pr
  have hanchor : anchorText information.data phrase.data
      = phrase.data ++ a := by
    simp [anchorText, hpr]
  have hinfo : information.data = b ++ phrase.data ++ a :=
    pyPartition_eq_append phrase.data information.data b a hpr
  have hmin : ∀ b' a', information.data = b' ++ phrase.data ++ a' →
      b.length ≤ b'.length :=
    pyPartition_minimal phrase.data information.data b a hpr
  have hspace : ' ' ∉ phrase.data := by
    intro hsp
    have := hnospace ' ' hsp
    simp [pyIsSpace] at this
  have hnorm : normNewlines (phrase.data ++ a)
      = phrase.data ++ normNewlines a :=
    normNewlines_append_nospace phrase.data hnospace a
  obtain ⟨w0, ws0, hsplit0⟩ :
      ∃ w0 ws0, splitSp (normNewlines a) = w0 :: ws0 := by
    cases h : splitSp (normNewlines a) with
    | nil => exact absurd h (splitSp_ne_nil _)
    | cons w0 ws0 => exact ⟨w0, ws0, rfl⟩
  have hwords : anchorTokens information.data phrase.data
      = (phrase.data ++ w0) :: ws0 := by
    rw [anchorTokens, hanchor, hnorm]
    exact splitSp_append_nospace phrase.data hspace _ w0 ws0 hsplit0
  have htok_nospace :
      ∀ u ∈ anchorTokens information.data phrase.data, ' ' ∉ u := by
    rw [anchorTokens]
    exact splitSp_no_space _
  have hx_nospace : ' ' ∉ phrase.data ++ w0 :=
    htok_nospace (phrase.data ++ w0) (by rw [hwords]; simp)
  have hjoin_words :
      joinSp (anchorTokens information.data phrase.data)
        = normNewlines (anchorText information.data phrase.data) := by
    rw [anchorTokens, joinSp_splitSp]
  set words := anchorTokens information.data phrase.data with hwords_def
  set numWords : Nat :=
    if accessTok ∈ words.take 400 then pyIndexOf accessTok words + 1
    else 400 with hnum_def
  have hgrab : grabber information phrase
      = some (String.mk (joinSp (words.take numWords))) := by
    rw [grabber, if_neg hnonempty]
  have hnum_pos : 1 ≤ numWords := by
    rw [hnum_def]
    by_cases hacc : accessTok ∈ words.take 400 <;> simp [hacc]
  have hnum_le : numWords ≤ 400 := by
    rw [hnum_def]
    by_cases hacc : accessTok ∈ words.take 400
    · simp only [if_pos hacc]
      exact pyIndexOf_lt_of_mem_take accessTok words 400 hacc
    · simp [hacc]
  obtain ⟨k, hk⟩ : ∃ k, numWords = k + 1 :=
    ⟨numWords - 1, by omega⟩
  have htake : words.take numWords = (phrase.data ++ w0) :: ws0.take k := by
    rw [hwords, hk, List.take_succ_cons]
  have hok : ∀ u ∈ (phrase.data ++ w0) :: ws0.take k, ' ' ∉ u := by
    intro u hu
    rcases List.mem_cons.mp hu with rfl | hu
    · exact hx_nospace
    · exact htok_nospace u
        (by rw [hwords]
            exact List.mem_cons_of_mem _ (List.take_subset k ws0 hu))
  have hdata : (String.mk (joinSp (words.take numWords))).data
      = joinSp (words.take numWords) := rfl
  have hroundtrip : splitSp (joinSp (words.take numWords))
      = words.take numWords := by
    rw [htake]
    exact splitSp_joinSp (ws0.take k) (phrase.data ++ w0) hok
  refine ⟨String.mk (joinSp (words.take numWords)), hgrab, ?_, ?_, ?_, ?_, ?_⟩
  · rw [hdata, htake]
    obtain ⟨t, ht⟩ := joinSp_cons_exists (phrase.data ++ w0) (ws0.take k)
    exact ⟨w0 ++ t, by rw [ht, List.append_assoc]⟩
  · rw [hdata, hroundtrip, htake]
    have : (ws0.take k).length ≤ k := by
      simp [List.length_take]
    simp only [List.length_cons]
    omega
  · rw [hdata, ← hjoin_words]
    exact joinSp_take_isPrefix words numWords
  · exact ⟨b, a, hinfo, hmin, hanchor⟩
  · intro hacc
    rw [hdata, hroundtrip]
    have hnum_eq : numWords = pyIndexOf accessTok words + 1 := by
      rw [hnum_def, if_pos hacc]
    rw [hnum_eq]
    exact pyIndexOf_take_getLast accessTok words
      (List.take_subset 400 words hacc)

/-- C3 witness: the anchor-window contract of `grabber` evaluated at a
concrete normalized page text containing the anchor phrase `"smith"`. -/
theorem grabber_anchor_window_witness :
    ∃ w, grabber "dr jane smith studied biology at ohio state" "smith"
        = some w
      ∧ "smith".data <+: w.data
      ∧ (splitSp w.data).length ≤ 400
      ∧ w.data <+: normNewlines (anchorText
          "dr jane smith studied biology at ohio state".data "smith".data)
      ∧ (∃ pre post,
          "dr jane smith studied biology at ohio state".data
            = pre ++ "smith".data ++ post
          ∧ (∀ pre' post',
              "dr jane smith studied biology at ohio state".data
                = pre' ++ "smith".data ++ post' →
                pre.length ≤ pre'.length)
          ∧ anchorText
              "dr jane smith studied biology at ohio state".data
              "smith".data
            = "smith".data ++ post)
      ∧ (accessTok ∈ (anchorTokens
            "dr jane smith studied biology at ohio state".data
            "smith".data).take 400 →
          (splitSp w.data).getLast? = some accessTok) :=
  grabber_anchor_window "dr jane smith studied biology at ohio state" "smith"
    (by decide) (by decide)
    ⟨"dr jane ".data, " studied biology at ohio state".data, by decide⟩

/-! ## Claim C4 -/

/-- C4 (code bug evaluation): in `bioData`, when the last name is the missing
marker `"nan"`, the guard `link["First"] != "nan" and not summary` evaluates
`not summary` with the local `summary` still unbound, raising `NameError`;
the bare `except: continue` then skips the URL entirely, so an entity whose
last name is missing but whose first name is present gets no window at all
(first conjunct). By contrast the fallback does work when the last name is
present: a last name that simply does not occur in the text yields an empty
(falsy) summary and the first name is then used (third conjunct); with a
present last name the window is anchored at it (second conjunct). -/
theorem bioData_missing_last_skips_url :
    bioDataUrlSummary "john smith is a candidate from ohio"
        "nan" "smith" "nan" = none
    ∧ bioDataUrlSummary "john smith is a candidate from ohio"
        "smith" "nan" "nan" = some "smith is a candidate from ohio"
    ∧ bioDataUrlSummary "john smith is a candidate from ohio"
        "zz" "smith" "nan" = some "smith is a candidate from ohio" := by
  refine ⟨rfl, ?_, ?_⟩ <;> decide
